import Mathlib

/-!
Shallow embedding of the cricket innings scorer: the `ScoreState` /
`BallEvent` data model (types.ts) and the reducer functions
`recordDelivery`, `clearLastDelivery` and `handleMaxWicketsChange`
(App.tsx), followed by theorems about them.

JavaScript numbers are modelled as `Int` for the score fields (the code
subtracts when reverting, so values are not a priori non-negative on
arbitrary states); command arguments (`runs`, `runsOnDismissal`), which the
upstream classifier validates to small non-negative integers, are `Nat`.
-/

namespace Cricket

/-- The kind of an extra delivery (`'wide' | 'no_ball'` in types.ts). -/
inductive ExtraKind where
  | wide : ExtraKind
  | no_ball : ExtraKind
deriving DecidableEq, Repr

/-- `BallEvent` from types.ts: one delivery's recorded outcome. -/
structure BallEvent where
  display : String
  runs : Int
  isWicket : Bool
  isLegalDelivery : Bool
  extraType : Option ExtraKind
deriving DecidableEq, Repr

/-- `ScoreState` from types.ts: the running innings score. -/
structure ScoreState where
  runs : Int
  wickets : Int
  overs : Int
  balls : Int
  recentThisOver : List BallEvent
  inningsOver : Bool
  targetOvers : Int
  maxWickets : Int
deriving DecidableEq, Repr

/-- `INITIAL_SCORE_STATE` from App.tsx. -/
def INITIAL_SCORE_STATE : ScoreState :=
  { runs := 0
    wickets := 0
    overs := 0
    balls := 0
    recentThisOver := []
    inningsOver := false
    targetOvers := 20
    maxWickets := 10 }

/-- A delivery-producing command, the closed variant form of the three
function-call shapes dispatched to `recordDelivery` (addRuns /
declareWicket / declareExtra).  `runsOnDismissal` is optional in the call
payload and defaulted with `|| 0` in the code, hence `Option Nat`. -/
inductive DeliveryCmd where
  | addRuns (runs : Nat) : DeliveryCmd
  | declareWicket (runsOnDismissal : Option Nat) : DeliveryCmd
  | declareExtra (kind : ExtraKind) (runs : Nat) : DeliveryCmd
deriving DecidableEq, Repr

/-- The default `newBallEvent` record built at step 2 of `recordDelivery`
before the `switch` fills it in. -/
def defaultBall : BallEvent :=
  { display := ""
    runs := 0
    isWicket := false
    isLegalDelivery := false
    extraType := none }

/-- The `switch (type)` block of `recordDelivery` (step 2): classify a
command into the `BallEvent` it records. -/
def classify : DeliveryCmd → BallEvent
  | .addRuns r =>
      { defaultBall with
          runs := (r : Int)
          display := toString r
          isLegalDelivery := true }
  | .declareWicket d =>
      let runsOnDismissal := d.getD 0
      { defaultBall with
          runs := (runsOnDismissal : Int)
          isWicket := true
          display := "W" ++ (if 0 < runsOnDismissal then "+" ++ toString runsOnDismissal else "")
          isLegalDelivery := true }
  | .declareExtra kind r =>
      { defaultBall with
          runs := 1 + (r : Int)
          display := (if 0 < r then toString r else "")
            ++ (match kind with | .wide => "wd" | .no_ball => "nb")
          isLegalDelivery := false
          extraType := some kind }

/-- The edit guard of `recordDelivery` (steps 1 and 4):
`ballNumberToEdit && ballNumberToEdit > 0 && ballNumberToEdit <= length`.
(The JavaScript truthiness test on `ballNumberToEdit` excludes `0`, which
`0 < k` already does.) -/
def validEdit (bn : Option Int) (len : Nat) : Bool :=
  match bn with
  | some k => decide (0 < k) && decide (k ≤ (len : Int))
  | none => false

/-- Number of legal deliveries recorded in a list of ball events:
`list.filter(b => b.isLegalDelivery).length`. -/
def legalCount (l : List BallEvent) : Nat :=
  (l.filter fun b => b.isLegalDelivery).length

/-- Wicket contribution of a ball event to the wickets total. -/
def wk (e : BallEvent) : Int := if e.isWicket then 1 else 0

/-- Step 4 of `recordDelivery`: overwrite position `ballNumber - 1` on a
valid edit; otherwise push the event, but only while fewer than 6 legal
deliveries are recorded. -/
def updateRecent (recent : List BallEvent) (bn : Option Int) (e : BallEvent) :
    List BallEvent :=
  if validEdit bn recent.length then recent.set (bn.getD 0 - 1).toNat e
  else if legalCount recent < 6 then recent ++ [e]
  else recent

/-- Steps 1-5 of `recordDelivery`: revert an edited ball's contribution,
apply the new event's contribution, update `recentThisOver`, and
recompute `overs`/`balls` with over rollover at 6 legal deliveries. -/
def applyDelivery (s : ScoreState) (e : BallEvent) (bn : Option Int) : ScoreState :=
  let edit := validEdit bn s.recentThisOver.length
  let orig := s.recentThisOver.getD (bn.getD 0 - 1).toNat defaultBall
  let r2 := (if edit then s.runs - orig.runs else s.runs) + e.runs
  let w2 := (if edit then s.wickets - wk orig else s.wickets) + wk e
  let recent := updateRecent s.recentThisOver bn e
  let lc := legalCount recent
  if 6 ≤ lc then
    { s with runs := r2, wickets := w2, overs := s.overs + 1, balls := 0,
             recentThisOver := [] }
  else
    { s with runs := r2, wickets := w2, balls := (lc : Int),
             recentThisOver := recent }

/-- Step 6 of `recordDelivery`: the termination check. -/
def checkEnd (s : ScoreState) : ScoreState :=
  if decide (s.maxWickets ≤ s.wickets) || decide (s.targetOvers ≤ s.overs) then
    { s with inningsOver := true }
  else s

/-- `recordDelivery` from App.tsx: the reducer for a delivery-producing
command, with its optional `ballNumberToEdit`. -/
def recordDelivery (s : ScoreState) (cmd : DeliveryCmd) (bn : Option Int) : ScoreState :=
  if s.inningsOver then s
  else checkEnd (applyDelivery s (classify cmd) bn)

/-- `clearLastDelivery` from App.tsx: pop the last recorded ball of the
current over and revert its contribution. -/
def clearLastDelivery (s : ScoreState) : ScoreState :=
  if s.inningsOver || s.recentThisOver.isEmpty then s
  else
    let lastBall := s.recentThisOver.getLast?.getD defaultBall
    let rest := s.recentThisOver.dropLast
    { s with runs := s.runs - lastBall.runs
             wickets := s.wickets - wk lastBall
             recentThisOver := rest
             balls := (legalCount rest : Int) }

/-- `isGameStarted` from App.tsx. -/
def isGameStarted (s : ScoreState) : Bool :=
  decide (0 < s.runs) || decide (0 < s.wickets) || decide (0 < s.overs) ||
    decide (0 < s.balls)

/-- `handleMaxWicketsChange` from App.tsx, composed with the fact that the
max-wickets input carries `disabled={isGameStarted}`, so the change event
(and hence the handler) only fires while the game has not started.  The
handler itself accepts the parsed value when it is a number `> 0`. -/
def handleMaxWicketsChange (s : ScoreState) (n : Int) : ScoreState :=
  if isGameStarted s then s
  else if 0 < n then { s with maxWickets := n }
  else s

/-- A command reaching the reducer through `handleGeminiFunctionCall`:
either one of the three delivery shapes (with optional ball number) or
`clearLastBall`. -/
inductive Cmd where
  | delivery (c : DeliveryCmd) (bn : Option Int) : Cmd
  | clearLastBall : Cmd
deriving DecidableEq, Repr

/-- `handleGeminiFunctionCall` dispatch: apply one command to the state. -/
def stepCmd (s : ScoreState) : Cmd → ScoreState
  | .delivery c bn => recordDelivery s c bn
  | .clearLastBall => clearLastDelivery s

/-- Apply a sequence of commands in arrival order. -/
def runCmds (s : ScoreState) (l : List Cmd) : ScoreState :=
  l.foldl stepCmd s

/-! ## Helper lemmas -/

theorem checkEnd_runs (s : ScoreState) : (checkEnd s).runs = s.runs := by
  unfold checkEnd; split <;> rfl

theorem checkEnd_wickets (s : ScoreState) : (checkEnd s).wickets = s.wickets := by
  unfold checkEnd; split <;> rfl

theorem checkEnd_overs (s : ScoreState) : (checkEnd s).overs = s.overs := by
  unfold checkEnd; split <;> rfl

theorem checkEnd_balls (s : ScoreState) : (checkEnd s).balls = s.balls := by
  unfold checkEnd; split <;> rfl

theorem checkEnd_recent (s : ScoreState) :
    (checkEnd s).recentThisOver = s.recentThisOver := by
  unfold checkEnd; split <;> rfl

theorem checkEnd_of_not_ended (s : ScoreState)
    (h : (checkEnd s).inningsOver = false) : checkEnd s = s := by
  unfold checkEnd at h ⊢
  by_cases hc : (decide (s.maxWickets ≤ s.wickets) || decide (s.targetOvers ≤ s.overs)) = true
  · rw [if_pos hc] at h
    simp at h
  · rw [if_neg hc]

theorem legalCount_append (l : List BallEvent) (e : BallEvent) :
    legalCount (l ++ [e]) = legalCount l + (if e.isLegalDelivery then 1 else 0) := by
  unfold legalCount
  rw [List.filter_append]
  by_cases h : e.isLegalDelivery <;> simp [h]

theorem legalCount_dropLast_le (l : List BallEvent) :
    legalCount l.dropLast ≤ legalCount l := by
  unfold legalCount
  exact ((l.dropLast_sublist).filter _).length_le

theorem legalCount_nil : legalCount [] = 0 := rfl

theorem applyDelivery_append (s : ScoreState) (e : BallEvent)
    (hcap : legalCount s.recentThisOver < 6)
    (hnoc : legalCount (s.recentThisOver ++ [e]) < 6) :
    applyDelivery s e none =
      { s with runs := s.runs + e.runs
               wickets := s.wickets + wk e
               balls := (legalCount (s.recentThisOver ++ [e]) : Int)
               recentThisOver := s.recentThisOver ++ [e] } := by
  simp only [applyDelivery, updateRecent, validEdit, Bool.false_eq_true,
    if_false]
  rw [if_pos hcap, if_neg (by omega)]

/-! ## Theorems about the claims -/

/-- C4: in a state with `inningsOver = true`, every command — any of the
three delivery shapes with or without a ball number, and `clearLastBall` —
returns the state unchanged, so no field of the score can change after
the innings has ended. -/
theorem terminal_state_noop (s : ScoreState) (cmd : Cmd)
    (h : s.inningsOver = true) : stepCmd s cmd = s := by
  cases cmd with
  | delivery c bn => simp [stepCmd, recordDelivery, h]
  | clearLastBall => simp [stepCmd, clearLastDelivery, h]

/-- A concrete terminal state. -/
def sEnded : ScoreState := { INITIAL_SCORE_STATE with inningsOver := true }

/-- Witness for `terminal_state_noop` at a concrete terminal state. -/
theorem terminal_state_noop_witness :
    stepCmd sEnded (Cmd.delivery (.addRuns 4) none) = sEnded :=
  terminal_state_noop sEnded (Cmd.delivery (.addRuns 4) none) rfl

/-- C2: the classification of the three delivery commands into
`BallEvent`s reproduces the spec's mapping table exactly: `addRuns r`
scores `r` with decimal label; `declareWicket d` scores `d.getD 0` as a
wicket with label `W` or `W+d`; `declareExtra kind r` scores `1 + r` as an
illegal delivery with label runs-prefix (omitted at 0) followed by `wd`
or `nb`. -/
theorem classification_table (r : Nat) (d : Option Nat) (k : ExtraKind) :
    classify (.addRuns r) =
      { display := toString r, runs := (r : Int), isWicket := false,
        isLegalDelivery := true, extraType := none } ∧
    classify (.declareWicket d) =
      { display := if d.getD 0 = 0 then "W" else "W+" ++ toString (d.getD 0),
        runs := ((d.getD 0 : Nat) : Int), isWicket := true,
        isLegalDelivery := true, extraType := none } ∧
    classify (.declareExtra k r) =
      { display := (if r = 0 then "" else toString r) ++
          (match k with | .wide => "wd" | .no_ball => "nb"),
        runs := 1 + (r : Int), isWicket := false, isLegalDelivery := false,
        extraType := some k } := by
  refine ⟨rfl, ?_, ?_⟩
  · rcases Nat.eq_zero_or_pos (d.getD 0) with h | h
    · simp [classify, defaultBall, h]
    · have h0 : d.getD 0 ≠ 0 := Nat.pos_iff_ne_zero.mp h
      simp [classify, defaultBall, h, h0, ← String.append_assoc]
  · rcases Nat.eq_zero_or_pos r with h | h
    · simp [classify, defaultBall, h]
    · have h0 : r ≠ 0 := Nat.pos_iff_ne_zero.mp h
      simp [classify, defaultBall, h, h0]

/-- C8: a delivery command whose ball number is absent, zero, negative or
beyond the length of `recentThisOver` is processed exactly as the same
command with no ball number at all (the append path). -/
theorem out_of_range_ballNumber_appends (s : ScoreState) (c : DeliveryCmd)
    (bn : Option Int)
    (h : bn = none ∨ ∃ k, bn = some k ∧ (k ≤ 0 ∨ (s.recentThisOver.length : Int) < k)) :
    recordDelivery s c bn = recordDelivery s c none := by
  rcases h with h | ⟨k, rfl, hk⟩
  · rw [h]
  · have hkp : ¬(0 < k ∧ k ≤ (s.recentThisOver.length : Int)) := by omega
    simp [recordDelivery, applyDelivery, updateRecent, validEdit, hkp]

/-- Witness for `out_of_range_ballNumber_appends`: ball number 3 in a
state whose current over holds a single delivery. -/
def sOneBall : ScoreState :=
  { INITIAL_SCORE_STATE with
      runs := 4
      balls := 1
      recentThisOver := [classify (.addRuns 4)] }

/-- Witness applying `out_of_range_ballNumber_appends` at `sOneBall` with
the out-of-range ball number 3. -/
theorem out_of_range_ballNumber_appends_witness :
    recordDelivery sOneBall (.addRuns 2) (some 3) =
      recordDelivery sOneBall (.addRuns 2) none :=
  out_of_range_ballNumber_appends sOneBall (.addRuns 2) (some 3)
    (Or.inr ⟨3, rfl, by decide⟩)

/-- C3: in any non-terminal state, when a delivery command brings the
count of legal deliveries in the updated `recentThisOver` to 6, the over
rolls: `overs` increments by 1, `recentThisOver` is cleared and `balls`
resets to 0; and the concrete scenario of six consecutive `addRuns 1`
from the initial state gives overs = 1, empty over, balls = 0, runs = 6. -/
theorem over_rollover (s : ScoreState) (c : DeliveryCmd) (bn : Option Int)
    (hend : s.inningsOver = false)
    (h6 : legalCount (updateRecent s.recentThisOver bn (classify c)) = 6) :
    ((recordDelivery s c bn).overs = s.overs + 1 ∧
     (recordDelivery s c bn).recentThisOver = [] ∧
     (recordDelivery s c bn).balls = 0) ∧
    ((runCmds INITIAL_SCORE_STATE
        (List.replicate 6 (Cmd.delivery (.addRuns 1) none))).overs = 1 ∧
     (runCmds INITIAL_SCORE_STATE
        (List.replicate 6 (Cmd.delivery (.addRuns 1) none))).recentThisOver = [] ∧
     (runCmds INITIAL_SCORE_STATE
        (List.replicate 6 (Cmd.delivery (.addRuns 1) none))).balls = 0 ∧
     (runCmds INITIAL_SCORE_STATE
        (List.replicate 6 (Cmd.delivery (.addRuns 1) none))).runs = 6) := by
  have h66 : 6 ≤ legalCount (updateRecent s.recentThisOver bn (classify c)) := h6.ge
  refine ⟨?_, by decide⟩
  simp only [recordDelivery, hend, Bool.false_eq_true, if_false,
    checkEnd_overs, checkEnd_recent, checkEnd_balls]
  simp only [applyDelivery]
  rw [if_pos h66]
  exact ⟨rfl, rfl, rfl⟩

/-- A state whose current over holds five legal single-run deliveries. -/
def sFiveLegal : ScoreState :=
  { INITIAL_SCORE_STATE with
      runs := 5
      balls := 5
      recentThisOver := List.replicate 5 (classify (.addRuns 1)) }

/-- Witness applying `over_rollover` at a state with five legal balls and
a sixth incoming legal delivery. -/
theorem over_rollover_witness :
    ((recordDelivery sFiveLegal (.addRuns 1) none).overs = sFiveLegal.overs + 1 ∧
     (recordDelivery sFiveLegal (.addRuns 1) none).recentThisOver = [] ∧
     (recordDelivery sFiveLegal (.addRuns 1) none).balls = 0) ∧
    ((runCmds INITIAL_SCORE_STATE
        (List.replicate 6 (Cmd.delivery (.addRuns 1) none))).overs = 1 ∧
     (runCmds INITIAL_SCORE_STATE
        (List.replicate 6 (Cmd.delivery (.addRuns 1) none))).recentThisOver = [] ∧
     (runCmds INITIAL_SCORE_STATE
        (List.replicate 6 (Cmd.delivery (.addRuns 1) none))).balls = 0 ∧
     (runCmds INITIAL_SCORE_STATE
        (List.replicate 6 (Cmd.delivery (.addRuns 1) none))).runs = 6) :=
  over_rollover sFiveLegal (.addRuns 1) none rfl (by decide)

/-- C6: in a non-terminal state whose current over already records 6
legal deliveries, an append-path delivery (no valid ball number) is not
added to `recentThisOver` by the array-update step, yet its runs are
still added to the total and a wicket still increments the total. -/
theorem over_capacity_drop (s : ScoreState) (c : DeliveryCmd) (bn : Option Int)
    (hend : s.inningsOver = false)
    (hbn : validEdit bn s.recentThisOver.length = false)
    (hfull : legalCount s.recentThisOver = 6) :
    updateRecent s.recentThisOver bn (classify c) = s.recentThisOver ∧
    (recordDelivery s c bn).runs = s.runs + (classify c).runs ∧
    (recordDelivery s c bn).wickets = s.wickets + wk (classify c) := by
  have hupd : updateRecent s.recentThisOver bn (classify c) = s.recentThisOver := by
    unfold updateRecent
    rw [hbn]
    simp only [Bool.false_eq_true, if_false]
    rw [if_neg (by omega)]
  refine ⟨hupd, ?_, ?_⟩
  · simp only [recordDelivery, hend, Bool.false_eq_true, if_false, checkEnd_runs]
    simp only [applyDelivery, hupd, hbn, if_false]
    rw [if_pos (by omega : 6 ≤ legalCount s.recentThisOver)]
    simp
  · simp only [recordDelivery, hend, Bool.false_eq_true, if_false, checkEnd_wickets]
    simp only [applyDelivery, hupd, hbn, if_false]
    rw [if_pos (by omega : 6 ≤ legalCount s.recentThisOver)]
    simp

/-- A state whose current over already records six legal deliveries (not
reachable through the reducer, which clears the over at six, but a
well-typed `ScoreState`). -/
def sSixLegal : ScoreState :=
  { INITIAL_SCORE_STATE with
      runs := 6
      balls := 6
      recentThisOver := List.replicate 6 (classify (.addRuns 1)) }

/-- Witness applying `over_capacity_drop` at a six-legal-delivery state
with an incoming wicket. -/
theorem over_capacity_drop_witness :
    updateRecent sSixLegal.recentThisOver none (classify (.declareWicket (some 2))) =
      sSixLegal.recentThisOver ∧
    (recordDelivery sSixLegal (.declareWicket (some 2)) none).runs =
      sSixLegal.runs + (classify (.declareWicket (some 2))).runs ∧
    (recordDelivery sSixLegal (.declareWicket (some 2)) none).wickets =
      sSixLegal.wickets + wk (classify (.declareWicket (some 2))) :=
  over_capacity_drop sSixLegal (.declareWicket (some 2)) none rfl rfl (by decide)

/-- C7: `handleMaxWicketsChange` with `n ≥ 1` installs the new wickets
limit exactly when the innings has not started (all of runs, wickets,
overs and balls are 0, with the data model's non-negativity); in any
started state it leaves the state unchanged. -/
theorem max_wickets_change_gated (s : ScoreState) (n : Int)
    (hn : 1 ≤ n) (hr : 0 ≤ s.runs) (hw : 0 ≤ s.wickets)
    (ho : 0 ≤ s.overs) (hb : 0 ≤ s.balls) :
    (s.runs = 0 ∧ s.wickets = 0 ∧ s.overs = 0 ∧ s.balls = 0 →
        handleMaxWicketsChange s n = { s with maxWickets := n }) ∧
    (¬(s.runs = 0 ∧ s.wickets = 0 ∧ s.overs = 0 ∧ s.balls = 0) →
        handleMaxWicketsChange s n = s) := by
  constructor
  · rintro ⟨h1, h2, h3, h4⟩
    have hg : isGameStarted s = false := by
      simp [isGameStarted, h1, h2, h3, h4]
    simp [handleMaxWicketsChange, hg, show (0 : Int) < n by omega]
  · intro hns
    have hg : isGameStarted s = true := by
      simp only [isGameStarted, Bool.or_eq_true, decide_eq_true_eq]
      omega
    simp [handleMaxWicketsChange, hg]

/-- Witness applying `max_wickets_change_gated` in the fresh initial
state with limit 5. -/
theorem max_wickets_change_gated_witness :
    (INITIAL_SCORE_STATE.runs = 0 ∧ INITIAL_SCORE_STATE.wickets = 0 ∧
        INITIAL_SCORE_STATE.overs = 0 ∧ INITIAL_SCORE_STATE.balls = 0 →
      handleMaxWicketsChange INITIAL_SCORE_STATE 5 =
        { INITIAL_SCORE_STATE with maxWickets := 5 }) ∧
    (¬(INITIAL_SCORE_STATE.runs = 0 ∧ INITIAL_SCORE_STATE.wickets = 0 ∧
        INITIAL_SCORE_STATE.overs = 0 ∧ INITIAL_SCORE_STATE.balls = 0) →
      handleMaxWicketsChange INITIAL_SCORE_STATE 5 = INITIAL_SCORE_STATE) :=
  max_wickets_change_gated INITIAL_SCORE_STATE 5 (by decide) (by decide)
    (by decide) (by decide) (by decide)

/-- A non-terminal state holding five legal single-run deliveries and one
wide in the current over. -/
def sFiveLegalOneWide : ScoreState :=
  { INITIAL_SCORE_STATE with
      runs := 6
      balls := 5
      recentThisOver := List.replicate 5 (classify (.addRuns 1)) ++
        [classify (.declareExtra .wide 0)] }

/-- C1 counterexample: in the non-terminal state `sFiveLegalOneWide`,
editing ball 6 (a wide, in range of the 6 recorded deliveries) to
`addRuns 0` changes `overs`, contradicting the claim that an in-range
edit leaves `completedOvers` unchanged. -/
theorem edit_changes_overs_counterexample :
    sFiveLegalOneWide.inningsOver = false ∧
    sFiveLegalOneWide.recentThisOver.length = 6 ∧
    (recordDelivery sFiveLegalOneWide (.addRuns 0) (some 6)).overs ≠
      sFiveLegalOneWide.overs := by decide

/-- C1 (amended): in a non-terminal state, editing ball `k`
(1 ≤ k ≤ length of `recentThisOver`) whose recorded outcome is `A` to the
outcome of command `c` changes `runs` by exactly
`(classify c).runs - A.runs` and `wickets` by exactly `wk (classify c) -
wk A`; and it leaves `overs` unchanged provided the edit leaves fewer
than 6 legal deliveries in the current over (otherwise the over completes
and `overs` increments). -/
theorem edit_net_effect (s : ScoreState) (c : DeliveryCmd) (k : Int)
    (A : BallEvent)
    (hend : s.inningsOver = false)
    (hk1 : 1 ≤ k) (hk2 : k ≤ (s.recentThisOver.length : Int))
    (hA : s.recentThisOver.getD (k - 1).toNat defaultBall = A) :
    (recordDelivery s c (some k)).runs = s.runs + ((classify c).runs - A.runs) ∧
    (recordDelivery s c (some k)).wickets =
      s.wickets + (wk (classify c) - wk A) ∧
    (legalCount (updateRecent s.recentThisOver (some k) (classify c)) < 6 →
      (recordDelivery s c (some k)).overs = s.overs) := by
  have hv : validEdit (some k) s.recentThisOver.length = true := by
    simp only [validEdit, Bool.and_eq_true, decide_eq_true_eq]
    omega
  simp only [recordDelivery, hend, Bool.false_eq_true, if_false,
    checkEnd_runs, checkEnd_wickets, checkEnd_overs]
  simp only [applyDelivery, hv, if_true, Option.getD_some]
  by_cases h6 : 6 ≤ legalCount (updateRecent s.recentThisOver (some k) (classify c))
  · rw [if_pos h6]
    refine ⟨?_, ?_, ?_⟩
    · show s.runs - _ + (classify c).runs = _
      rw [show s.recentThisOver.getD (k - 1).toNat defaultBall = A from hA]
      ring
    · show s.wickets - _ + wk (classify c) = _
      rw [show s.recentThisOver.getD (k - 1).toNat defaultBall = A from hA]
      ring
    · intro hlt
      omega
  · rw [if_neg h6]
    refine ⟨?_, ?_, fun _ => rfl⟩
    · show s.runs - _ + (classify c).runs = _
      rw [show s.recentThisOver.getD (k - 1).toNat defaultBall = A from hA]
      ring
    · show s.wickets - _ + wk (classify c) = _
      rw [show s.recentThisOver.getD (k - 1).toNat defaultBall = A from hA]
      ring

/-- Witness applying `edit_net_effect` at `sFiveLegalOneWide`, editing
ball 1 (a single) into a wicket with no runs. -/
theorem edit_net_effect_witness :
    (recordDelivery sFiveLegalOneWide (.declareWicket (some 0)) (some 1)).runs =
      sFiveLegalOneWide.runs +
        ((classify (.declareWicket (some 0))).runs - (classify (.addRuns 1)).runs) ∧
    (recordDelivery sFiveLegalOneWide (.declareWicket (some 0)) (some 1)).wickets =
      sFiveLegalOneWide.wickets +
        (wk (classify (.declareWicket (some 0))) - wk (classify (.addRuns 1))) ∧
    (legalCount (updateRecent sFiveLegalOneWide.recentThisOver (some 1)
        (classify (.declareWicket (some 0)))) < 6 →
      (recordDelivery sFiveLegalOneWide (.declareWicket (some 0)) (some 1)).overs =
        sFiveLegalOneWide.overs) :=
  edit_net_effect sFiveLegalOneWide (.declareWicket (some 0)) 1
    (classify (.addRuns 1)) rfl (by decide) (by decide) (by decide)

/-- A fresh state whose wickets limit is 1, so the first wicket ends the
innings. -/
def sLastWicket : ScoreState := { INITIAL_SCORE_STATE with maxWickets := 1 }

/-- C5 counterexample: from `sLastWicket` (non-terminal), declaring a
wicket appends it to the empty current over without completing it, but
the innings ends (wickets limit 1), so the following `clearLastDelivery`
is a no-op and `wickets` is not restored to its pre-append value. -/
theorem clear_after_append_counterexample :
    sLastWicket.inningsOver = false ∧
    updateRecent sLastWicket.recentThisOver none (classify (.declareWicket (some 0))) =
      sLastWicket.recentThisOver ++ [classify (.declareWicket (some 0))] ∧
    legalCount (sLastWicket.recentThisOver ++ [classify (.declareWicket (some 0))]) < 6 ∧
    (clearLastDelivery (recordDelivery sLastWicket (.declareWicket (some 0)) none)).wickets ≠
      sLastWicket.wickets := by decide

/-- C5 (amended): in a non-terminal state whose `balls` agrees with the
legal-delivery count of the current over, a delivery command without a
ball number that appends (fewer than 6 legal deliveries before, still
fewer than 6 after, so no over completion) and does not end the innings
is inverted by `clearLastDelivery`: `runs`, `wickets`, `recentThisOver`
and `balls` all return to their pre-append values. -/
theorem clear_inverts_append (s : ScoreState) (c : DeliveryCmd)
    (hend : s.inningsOver = false)
    (hballs : s.balls = (legalCount s.recentThisOver : Int))
    (hcap : legalCount s.recentThisOver < 6)
    (hnoc : legalCount (s.recentThisOver ++ [classify c]) < 6)
    (hne : (recordDelivery s c none).inningsOver = false) :
    (clearLastDelivery (recordDelivery s c none)).runs = s.runs ∧
    (clearLastDelivery (recordDelivery s c none)).wickets = s.wickets ∧
    (clearLastDelivery (recordDelivery s c none)).recentThisOver =
      s.recentThisOver ∧
    (clearLastDelivery (recordDelivery s c none)).balls = s.balls := by
  have happ := applyDelivery_append s (classify c) hcap hnoc
  have hrd : recordDelivery s c none =
      checkEnd (applyDelivery s (classify c) none) := by
    simp only [recordDelivery, hend, Bool.false_eq_true, if_false]
  rw [hrd] at hne ⊢
  rw [checkEnd_of_not_ended _ hne] at *
  rw [happ]
  have hclear : clearLastDelivery
      { s with runs := s.runs + (classify c).runs
               wickets := s.wickets + wk (classify c)
               balls := (legalCount (s.recentThisOver ++ [classify c]) : Int)
               recentThisOver := s.recentThisOver ++ [classify c] } =
      { s with runs := s.runs + (classify c).runs - (classify c).runs
               wickets := s.wickets + wk (classify c) - wk (classify c)
               balls := (legalCount s.recentThisOver : Int)
               recentThisOver := s.recentThisOver } := by
    unfold clearLastDelivery
    rw [if_neg (by simp [hend])]
    simp [List.getLast?_concat, List.dropLast_concat]
  rw [hclear]
  refine ⟨by ring, by ring, rfl, hballs.symm⟩

/-- Witness applying `clear_inverts_append` to `addRuns 4` in the fresh
initial state. -/
theorem clear_inverts_append_witness :
    (clearLastDelivery (recordDelivery INITIAL_SCORE_STATE (.addRuns 4) none)).runs =
      INITIAL_SCORE_STATE.runs ∧
    (clearLastDelivery (recordDelivery INITIAL_SCORE_STATE (.addRuns 4) none)).wickets =
      INITIAL_SCORE_STATE.wickets ∧
    (clearLastDelivery (recordDelivery INITIAL_SCORE_STATE (.addRuns 4) none)).recentThisOver =
      INITIAL_SCORE_STATE.recentThisOver ∧
    (clearLastDelivery (recordDelivery INITIAL_SCORE_STATE (.addRuns 4) none)).balls =
      INITIAL_SCORE_STATE.balls :=
  clear_inverts_append INITIAL_SCORE_STATE (.addRuns 4) rfl (by decide)
    (by decide) (by decide) (by decide)

/-- The `balls` field agrees with the legal-delivery count of the current
over, and that count is at most 5. -/
def BallsInv (s : ScoreState) : Prop :=
  s.balls = (legalCount s.recentThisOver : Int) ∧
    legalCount s.recentThisOver ≤ 5

theorem ballsInv_checkEnd (s : ScoreState) (h : BallsInv s) :
    BallsInv (checkEnd s) := by
  unfold BallsInv at *
  rw [checkEnd_balls, checkEnd_recent]
  exact h

theorem ballsInv_apply (s : ScoreState) (e : BallEvent) (bn : Option Int) :
    BallsInv (applyDelivery s e bn) := by
  simp only [applyDelivery]
  by_cases h6 : 6 ≤ legalCount (updateRecent s.recentThisOver bn e)
  · rw [if_pos h6]
    refine ⟨rfl, ?_⟩
    show legalCount [] ≤ 5
    decide
  · rw [if_neg h6]
    refine ⟨rfl, ?_⟩
    show legalCount (updateRecent s.recentThisOver bn e) ≤ 5
    omega

theorem ballsInv_record (s : ScoreState) (c : DeliveryCmd) (bn : Option Int)
    (h : BallsInv s) : BallsInv (recordDelivery s c bn) := by
  unfold recordDelivery
  by_cases hend : s.inningsOver = true
  · rw [if_pos hend]
    exact h
  · rw [if_neg hend]
    exact ballsInv_checkEnd _ (ballsInv_apply s (classify c) bn)

theorem ballsInv_clear (s : ScoreState) (h : BallsInv s) :
    BallsInv (clearLastDelivery s) := by
  unfold clearLastDelivery
  by_cases hc : (s.inningsOver || s.recentThisOver.isEmpty) = true
  · rw [if_pos hc]
    exact h
  · rw [if_neg hc]
    exact ⟨rfl, le_trans (legalCount_dropLast_le _) h.2⟩

theorem ballsInv_step (s : ScoreState) (cmd : Cmd) (h : BallsInv s) :
    BallsInv (stepCmd s cmd) := by
  cases cmd with
  | delivery c bn => exact ballsInv_record s c bn h
  | clearLastBall => exact ballsInv_clear s h

theorem ballsInv_run (l : List Cmd) (s : ScoreState) (h : BallsInv s) :
    BallsInv (runCmds s l) := by
  induction l generalizing s with
  | nil => exact h
  | cons cmd l ih =>
    simp only [runCmds, List.foldl_cons]
    exact ih (stepCmd s cmd) (ballsInv_step s cmd h)

/-- C9: in every state reachable from the initial state by a sequence of
delivery commands and `clearLastBall`, `balls` equals the count of legal
deliveries in `recentThisOver`, that count is at most 5, and hence
`balls` lies in `[0, 6)` — so the over-capacity drop branch never fires
on reachable states. -/
theorem reachable_balls_invariant (l : List Cmd) :
    (runCmds INITIAL_SCORE_STATE l).balls =
      (legalCount (runCmds INITIAL_SCORE_STATE l).recentThisOver : Int) ∧
    legalCount (runCmds INITIAL_SCORE_STATE l).recentThisOver ≤ 5 ∧
    0 ≤ (runCmds INITIAL_SCORE_STATE l).balls ∧
    (runCmds INITIAL_SCORE_STATE l).balls < 6 := by
  obtain ⟨h1, h2⟩ := ballsInv_run l INITIAL_SCORE_STATE ⟨rfl, by decide⟩
  refine ⟨h1, h2, ?_, ?_⟩ <;> omega

/-- The state shape maintained while only extras are bowled: innings
alive, no wickets, no completed overs, no legal deliveries in the
current over, and positive limits. -/
def ExtrasInv (s : ScoreState) : Prop :=
  s.inningsOver = false ∧ s.wickets = 0 ∧ s.overs = 0 ∧
    legalCount s.recentThisOver = 0 ∧ 0 < s.maxWickets ∧ 0 < s.targetOvers

theorem extras_step (s : ScoreState) (k : ExtraKind) (r : Nat)
    (h : ExtrasInv s) :
    ExtrasInv (recordDelivery s (.declareExtra k r) none) ∧
    (recordDelivery s (.declareExtra k r) none).recentThisOver.length =
      s.recentThisOver.length + 1 := by
  obtain ⟨hend, hw, ho, hlc, hmw, hto⟩ := h
  have hlegal : (classify (.declareExtra k r)).isLegalDelivery = false := rfl
  have hwk : wk (classify (.declareExtra k r)) = 0 := rfl
  have hnoc : legalCount (s.recentThisOver ++ [classify (.declareExtra k r)]) = 0 := by
    rw [legalCount_append, hlegal]
    simp [hlc]
  have happ := applyDelivery_append s (classify (.declareExtra k r))
    (by omega) (by omega)
  have hrd : recordDelivery s (.declareExtra k r) none =
      checkEnd (applyDelivery s (classify (.declareExtra k r)) none) := by
    simp only [recordDelivery, hend, Bool.false_eq_true, if_false]
  rw [hrd, happ, hwk]
  have hck : checkEnd
      { s with runs := s.runs + (classify (.declareExtra k r)).runs
               wickets := s.wickets + 0
               balls := (legalCount (s.recentThisOver ++ [classify (.declareExtra k r)]) : Int)
               recentThisOver := s.recentThisOver ++ [classify (.declareExtra k r)] } =
      { s with runs := s.runs + (classify (.declareExtra k r)).runs
               wickets := s.wickets + 0
               balls := (legalCount (s.recentThisOver ++ [classify (.declareExtra k r)]) : Int)
               recentThisOver := s.recentThisOver ++ [classify (.declareExtra k r)] } := by
    unfold checkEnd
    rw [if_neg]
    show ¬(decide (s.maxWickets ≤ s.wickets + 0) ||
      decide (s.targetOvers ≤ s.overs)) = true
    simp only [Bool.or_eq_true, decide_eq_true_eq, not_or, not_le]
    constructor <;> omega
  rw [hck]
  refine ⟨⟨hend, by show s.wickets + 0 = 0; omega, ho, hnoc, hmw, hto⟩, ?_⟩
  simp [List.length_append]

theorem extras_run (l : List (ExtraKind × Nat)) (s : ScoreState)
    (h : ExtrasInv s) :
    ExtrasInv (runCmds s
      (l.map fun p => Cmd.delivery (.declareExtra p.1 p.2) none)) ∧
    (runCmds s
        (l.map fun p => Cmd.delivery (.declareExtra p.1 p.2) none)).recentThisOver.length =
      s.recentThisOver.length + l.length := by
  induction l generalizing s with
  | nil => exact ⟨h, by simp [runCmds]⟩
  | cons p l ih =>
    simp only [List.map_cons, runCmds, List.foldl_cons, stepCmd]
    obtain ⟨h1, h2⟩ := extras_step s p.1 p.2 h
    obtain ⟨h3, h4⟩ := ih (recordDelivery s (.declareExtra p.1 p.2) none) h1
    refine ⟨h3, ?_⟩
    simp only [runCmds] at h4
    rw [h4, h2, List.length_cons]
    omega

/-- C10: the current over's delivery list is unbounded — after any
sequence of `n` extra deliveries from the initial state, all `n` extras
are recorded in `recentThisOver` (none dropped), no over completes and
the innings stays alive. -/
theorem extras_never_dropped (l : List (ExtraKind × Nat)) :
    (runCmds INITIAL_SCORE_STATE
        (l.map fun p => Cmd.delivery (.declareExtra p.1 p.2) none)).recentThisOver.length =
      l.length ∧
    (runCmds INITIAL_SCORE_STATE
        (l.map fun p => Cmd.delivery (.declareExtra p.1 p.2) none)).overs = 0 ∧
    (runCmds INITIAL_SCORE_STATE
        (l.map fun p => Cmd.delivery (.declareExtra p.1 p.2) none)).inningsOver = false := by
  obtain ⟨hinv, hlen⟩ := extras_run l INITIAL_SCORE_STATE
    ⟨rfl, rfl, rfl, rfl, by decide, by decide⟩
  exact ⟨by simpa [INITIAL_SCORE_STATE] using hlen, hinv.2.2.1, hinv.1⟩

end Cricket
